import Mathlib

/-!
Verification of `src/core/net/http/impl/curl/client.cpp` (net-cpp).

The file shallowly embeds the client adapter: the base64 codec (built on the
boost.archive iterator pipeline), and the `head`/`get`/`post`/`put` submission
functions that build a curl easy handle from a `Request::Configuration`,
resolve credentials, and hand the handle to the multiplexer.

C++ `std::string` values that carry binary data are modelled as `List Nat`
(one entry per byte, each `< 256`); textual values (URLs, header names,
content types) are modelled as Lean `String`.
-/

namespace NetCpp

/-- A C++ `std::string` viewed as a byte sequence. -/
abbrev Bytes := List Nat

/-! ## Bit-stream primitives

`boost::archive::iterators::transform_width<_, BitsOut, BitsIn>` regards its
input as a big-endian bit stream (most significant bit of each element first)
and regroups it into `BitsOut`-bit output elements.  We model the bit stream
as a `List Bool`, most significant bit first. -/

/-- The low `w` bits of `n`, most significant first. -/
def natBits : Nat → Nat → List Bool
  | 0, _ => []
  | w + 1, n => n.testBit w :: natBits w n

/-- Value of a big-endian bit list. -/
def bitsToNat : List Bool → Nat
  | [] => 0
  | b :: bs => (cond b 1 0) * 2 ^ bs.length + bitsToNat bs

/-- `transform_width<_, 6, 8>` (used by `base64_enc` in `Client::base64_encode`):
regroup the bit stream into successive 6-bit values.  When the stream is
exhausted mid-group, the group in flight is filled up with zero bits
(`BitsIn > BitsOut` case of `transform_width::equal_impl`: "zero fill"). -/
def chunk6 : List Bool → List Nat
  | [] => []
  | b1 :: b2 :: b3 :: b4 :: b5 :: b6 :: rest => bitsToNat [b1, b2, b3, b4, b5, b6] :: chunk6 rest
  | [b1] => [bitsToNat [b1, false, false, false, false, false]]
  | [b1, b2] => [bitsToNat [b1, b2, false, false, false, false]]
  | [b1, b2, b3] => [bitsToNat [b1, b2, b3, false, false, false]]
  | [b1, b2, b3, b4] => [bitsToNat [b1, b2, b3, b4, false, false]]
  | [b1, b2, b3, b4, b5] => [bitsToNat [b1, b2, b3, b4, b5, false]]

/-- `transform_width<_, 8, 6>` (used by `base64_dec` in `Client::base64_decode`):
regroup the bit stream into successive 8-bit values.  Left-over bits that
cannot fill a whole byte are discarded (`BitsIn < BitsOut` case of
`transform_width::equal_impl`: "discard any left over bits"). -/
def chunk8 : List Bool → List Nat
  | b1 :: b2 :: b3 :: b4 :: b5 :: b6 :: b7 :: b8 :: rest =>
    bitsToNat [b1, b2, b3, b4, b5, b6, b7, b8] :: chunk8 rest
  | _ => []

/-- `boost::archive::iterators::detail::from_6_bit`: the base64 alphabet lookup
`"ABCDEFGHIJKLMNOPQRSTUVWXYZabcdefghijklmnopqrstuvwxyz0123456789+/"`,
as a function from a 6-bit value to the ASCII code of its digit. -/
def from_6_bit (t : Nat) : Nat :=
  if t < 26 then 65 + t            -- 'A'..'Z'
  else if t < 52 then 97 + (t - 26) -- 'a'..'z'
  else if t < 62 then 48 + (t - 52) -- '0'..'9'
  else if t = 62 then 43            -- '+'
  else 47                           -- '/'

/-- `boost::archive::iterators::binary_from_base64`: inverse alphabet lookup.
An ASCII code outside the base64 alphabet makes the boost iterator throw a
`dataflow_exception`, modelled as `none`. -/
def binary_from_base64 (c : Nat) : Option Nat :=
  if 65 ≤ c ∧ c ≤ 90 then some (c - 65)
  else if 97 ≤ c ∧ c ≤ 122 then some (26 + (c - 97))
  else if 48 ≤ c ∧ c ≤ 57 then some (52 + (c - 48))
  else if c = 43 then some 62
  else if c = 47 then some 63
  else none

/-- `const std::string BASE64_PADDING[] = { "", "==", "=" };`
(client.cpp line 37; `'='` is byte 61). -/
def BASE64_PADDING : List Bytes := [[], [61, 61], [61]]

/-- `Client::base64_encode` (client.cpp lines 51-66): copy the input through
`base64_from_binary<transform_width<_, 6, 8>>`, then append
`BASE64_PADDING[s.size() % 3]`. -/
def base64_encode (s : Bytes) : Bytes :=
  (chunk6 (s.flatMap (natBits 8))).map from_6_bit ++ BASE64_PADDING.getD (s.length % 3) []

/-- The padding-stripping prologue of `Client::base64_decode`
(client.cpp lines 74-82): starting from `size = s.size()`, decrement `size`
once for each of at most two trailing `'='` characters. -/
def stripSize (s : Bytes) : Nat :=
  if s.length ≠ 0 ∧ s.getD (s.length - 1) 0 = 61 then
    if s.length - 1 ≠ 0 ∧ s.getD (s.length - 1 - 1) 0 = 61 then s.length - 1 - 1
    else s.length - 1
  else s.length

/-- The `binary_from_base64` pass over the effective input: every character is
looked up in the inverse alphabet; the first invalid character aborts the
whole copy with an exception (`none`). -/
def lookupAll : Bytes → Option (List Nat)
  | [] => some []
  | c :: cs =>
    match binary_from_base64 c with
    | some v =>
      match lookupAll cs with
      | some vs => some (v :: vs)
      | none => none
    | none => none

/-- `Client::base64_decode` (client.cpp lines 68-90): strip up to two trailing
`'='`, return `""` if nothing is left, otherwise decode the first `size`
characters through `transform_width<binary_from_base64<_>, 8, 6>`.

When the effective length is `≡ 1 (mod 4)`, the boost pipeline consumes one
character *past* `s.data() + size` while trying to fill the byte in flight
(`transform_width::fill` reads eagerly and the decode direction never sets
`m_end_of_sequence`): that character is either a stripped `'='` or the
terminating NUL of `s.data()`, both outside the alphabet, so the copy throws
a `dataflow_exception` — modelled as `none`. -/
def base64_decode (s : Bytes) : Option Bytes :=
  if stripSize s = 0 then some []
  else if stripSize s % 4 = 1 then none
  else
    match lookupAll (s.take (stripSize s)) with
    | some vals => some (chunk8 (vals.flatMap (natBits 6)))
    | none => none

/-! ## The HTTP client adapter

`client.cpp` builds a `::curl::easy::Handle` per submission, configures it
from the `Request::Configuration`, and wraps it in a `Request` that shares
the client's `Multi` (the multiplexer).  The handle/request/multi classes
themselves live in `curl.h` / `request.h`, which are not part of the source
fragment; their behaviour is modelled from the spec where needed (each such
definition says so). -/

/-- `core::net::http::Method` (only the four used by the adapter). -/
inductive Method
  | head
  | get
  | post
  | put
deriving DecidableEq, Repr

/-- `Request::Configuration::ssl` — the two TLS verification flags.
Modelled from the spec: the default-constructed configuration is verify-on
for both peer and host (the defaults live in `request.h`, outside the
source fragment). -/
structure SslConfig where
  verify_host : Bool := true
  verify_peer : Bool := true
deriving DecidableEq, Repr

/-- A username/password pair yielded by the credential resolver. -/
structure Credentials where
  username : String
  password : String
deriving DecidableEq, Repr

/-- `Request::Configuration`.  The authentication handler's `for_http` member
is a resolver from the URI to credentials; a resolver that throws is
modelled as returning `Except.error` with the exception's description. -/
structure Configuration where
  uri : String
  header : List (String × String) := []
  ssl : SslConfig := {}
  authentication_handler : Option (String → Except String Credentials) := Option.none

/-- Values of the curl option constants used by `client.cpp`:
`::curl::easy::enable` (1), `::curl::easy::disable` (0) and
`::curl::easy::enable_ssl_host_verification` (2, curl's strict
`CURLOPT_SSL_VERIFYHOST` setting). -/
def enable : Nat := 1

/-- `::curl::easy::disable` = 0. -/
def disable : Nat := 0

/-- `::curl::easy::enable_ssl_host_verification` = 2. -/
def enable_ssl_host_verification : Nat := 2

/-- The body source attached to a handle: none (HEAD/GET), an in-memory
buffer plus content type (POST), or a streaming read callback with a
declared size (PUT; the callback itself is modelled by `on_read_data`
below). -/
inductive BodySource
  | none
  | buffer (payload : Bytes) (contentType : String)
  | stream (size : Nat)
deriving DecidableEq, Repr

/-- `::curl::easy::Handle` as configured by `client.cpp`: method, URL,
headers, the two TLS verification options (stored as the `long` values
passed to `set_option`), optional transport credentials and a body source. -/
structure Handle where
  method : Method
  url : String
  header : List (String × String)
  ssl_verify_host : Nat
  ssl_verify_peer : Nat
  credentials : Option Credentials := Option.none
  body : BodySource := BodySource.none
deriving DecidableEq, Repr

/-- The multiplexer (`::curl::multi::Handle`).  Modelled from the spec: it
owns the set of registered transfer handles, the construction-time
pipelining option, and the aggregate timing records filled in as transfers
complete. -/
structure Multiplexer where
  pipelining : Bool := true
  handles : List Handle := []
  timings : List Nat := []
deriving DecidableEq, Repr

/-- State of a `RequestFacade` (spec section 4.3). -/
inductive RequestState
  | pending
  | completed
  | failed
deriving DecidableEq, Repr

/-- The per-submission request object returned to the caller.  Modelled from
the spec: a fresh facade starts in the `pending` state and holds the built
transfer handle. -/
structure RequestFacade where
  handle : Handle
  state : RequestState := RequestState.pending
deriving DecidableEq, Repr

/-- Configuration-time submission errors (spec section 7): a malformed
configuration, or a credential resolver that raised. -/
inductive SubmitError
  | InvalidRequest
  | CredentialResolutionFailed (message : String)
deriving DecidableEq, Repr

/-- Modelled from the spec: URL validation.  `client.cpp` passes
`configuration.uri.c_str()` straight to `handle.url(...)`; the check that the
configuration has a non-empty, well-formed URL (failing with
`InvalidRequest`) lives behind that call, outside the source fragment.  The
validator is kept abstract except for the one property the spec states
outright: the empty URL is rejected. -/
structure UrlValidator where
  wellFormed : String → Bool
  empty_not_wellFormed : wellFormed "" = false

/-- The credential-resolution block repeated verbatim in `head`, `get`,
`post` and `put` (client.cpp lines 120-124, 141-145, 166-170, 195-199): if
`configuration.authentication_handler.for_http` is set, invoke it with
`configuration.uri` and attach the yielded credentials to the handle; a
resolver that raises aborts handle creation. -/
def resolveCredentials (handle : Handle) (configuration : Configuration) :
    Except SubmitError Handle :=
  match configuration.authentication_handler with
  | Option.none => Except.ok handle
  | Option.some for_http =>
    match for_http configuration.uri with
    | Except.ok credentials => Except.ok { handle with credentials := Option.some credentials }
    | Except.error e => Except.error (SubmitError.CredentialResolutionFailed e)

/-- The SSL-option block repeated verbatim in all four submissions
(client.cpp lines 115-118, 136-139, 161-164, 190-193):
`set_option(ssl_verify_host, verify_host ? enable_ssl_host_verification :
disable)` and `set_option(ssl_verify_peer, verify_peer ? enable : disable)`. -/
def applySslOptions (handle : Handle) (configuration : Configuration) : Handle :=
  { handle with
    ssl_verify_host :=
      if configuration.ssl.verify_host then enable_ssl_host_verification else disable,
    ssl_verify_peer := if configuration.ssl.verify_peer then enable else disable }

/-- Registration of the finished handle:
`new http::impl::curl::Request{multi, handle}` (the tail of every
submission).  Modelled from the spec: the handle is registered with the
multiplexer and a fresh facade in the `pending` state is returned; no
network I/O happens, so no other multiplexer state changes. -/
def registerHandle (m : Multiplexer) (handle : Handle) :
    Except SubmitError RequestFacade × Multiplexer :=
  (Except.ok { handle := handle, state := RequestState.pending },
   { m with handles := m.handles ++ [handle] })

/-- `Client::head` (client.cpp lines 107-127).  The whole submission is the
pair (synchronous result, multiplexer afterwards); configuration-time errors
leave the multiplexer untouched. -/
def Client.head (v : UrlValidator) (m : Multiplexer) (configuration : Configuration) :
    Except SubmitError RequestFacade × Multiplexer :=
  if v.wellFormed configuration.uri = false then (Except.error SubmitError.InvalidRequest, m)
  else
    let handle : Handle :=
      applySslOptions
        { method := Method.head, url := configuration.uri, header := configuration.header,
          ssl_verify_host := disable, ssl_verify_peer := disable }
        configuration
    match resolveCredentials handle configuration with
    | Except.error e => (Except.error e, m)
    | Except.ok handle => registerHandle m handle

/-- `Client::get` (client.cpp lines 129-148). -/
def Client.get (v : UrlValidator) (m : Multiplexer) (configuration : Configuration) :
    Except SubmitError RequestFacade × Multiplexer :=
  if v.wellFormed configuration.uri = false then (Except.error SubmitError.InvalidRequest, m)
  else
    let handle : Handle :=
      applySslOptions
        { method := Method.get, url := configuration.uri, header := configuration.header,
          ssl_verify_host := disable, ssl_verify_peer := disable }
        configuration
    match resolveCredentials handle configuration with
    | Except.error e => (Except.error e, m)
    | Except.ok handle => registerHandle m handle

/-- `payload.c_str()` as seen across a `const char*` boundary: the receiver
(`Handle::post_data` in `curl.h`, outside the source fragment) is handed a
NUL-terminated buffer with no separate length, so it can only see the bytes
before the first NUL. -/
def cStr (payload : Bytes) : Bytes := payload.takeWhile (fun b => b != 0)

/-- `Client::post` (client.cpp lines 150-173): like `get`, with
`.post_data(payload.c_str(), ct)` in the builder chain.  Modelled from the
spec for the `post_data` receiver: it attaches the given bytes as the
in-memory request body together with the content-type header. -/
def Client.post (v : UrlValidator) (m : Multiplexer) (configuration : Configuration)
    (payload : Bytes) (ct : String) :
    Except SubmitError RequestFacade × Multiplexer :=
  if v.wellFormed configuration.uri = false then (Except.error SubmitError.InvalidRequest, m)
  else
    let handle : Handle :=
      applySslOptions
        { method := Method.post, url := configuration.uri, header := configuration.header,
          ssl_verify_host := disable, ssl_verify_peer := disable,
          body := BodySource.buffer (cStr payload) ct }
        configuration
    match resolveCredentials handle configuration with
    | Except.error e => (Except.error e, m)
    | Except.ok handle => registerHandle m handle

/-- `std::istream` under `readsome`: `chunks.head` is what is buffered (and
hence immediately available) right now; later chunks become available only
after the current one has been drained (non-blocking reads never wait for
them). -/
structure IStream where
  chunks : List Bytes
deriving DecidableEq, Repr

/-- `std::istream::readsome(dest, count)`: transfer at most `count` of the
immediately available characters, without blocking; returns the characters
read and the stream afterwards. -/
def readsome (st : IStream) (count : Nat) : Bytes × IStream :=
  match st.chunks with
  | [] => ([], st)
  | c :: rest =>
    (c.take count,
     if count < c.length then { chunks := c.drop count :: rest } else { chunks := rest })

/-- The `on_read_data` lambda installed by `Client::put` (client.cpp lines
184-188): called by the engine with a destination buffer of
`in_size * nmemb` bytes, it runs `payload.readsome(dest, size)` — `size`
being the *declared total* upload size captured by value.  The two capacity
parameters are deliberately unnamed in the source (`/*in_size*/`,
`/*nmemb*/`) and ignored. -/
def on_read_data (size : Nat) (payload : IStream) (_in_size _nmemb : Nat) : Bytes × IStream :=
  readsome payload size

/-- Modelled from the spec: the engine's upload pump.  While fewer than
`size` bytes have been gathered, invoke the read callback with a
`in_size * nmemb`-byte destination buffer and account whatever it returns;
stop once `size` bytes have been gathered or the callback reports
exhaustion.  The loop runs at most `size` iterations because every continued
iteration gathers at least one byte, so `size` is also used as structural
fuel: fuel can only run out when `sent.length ≥ size` already holds, where
the loop returns the same answer anyway. -/
def pullLoop (cb : IStream → Nat → Nat → Bytes × IStream) (in_size nmemb size : Nat) :
    Nat → IStream → Bytes → Bytes × IStream
  | 0, st, sent => (sent, st)
  | fuel + 1, st, sent =>
    if size ≤ sent.length then (sent, st)
    else
      match cb st in_size nmemb with
      | ([], st2) => (sent, st2)
      | (b :: bs, st2) => pullLoop cb in_size nmemb size fuel st2 (sent ++ b :: bs)

/-- The whole PUT upload path: the engine pump driving the source's
`on_read_data` lambda.  The first component is everything the callback
pulled from the stream. -/
def put_pull (payload : IStream) (size in_size nmemb : Nat) : Bytes × IStream :=
  pullLoop (on_read_data size) in_size nmemb size size payload []

/-- `Client::put` (client.cpp lines 175-202): like `get`, with
`.on_read_data(lambda, size)` in the builder chain; the handle records the
streaming body source with its declared size, and the lambda itself is
modelled by `on_read_data`. -/
def Client.put (v : UrlValidator) (m : Multiplexer) (configuration : Configuration)
    (size : Nat) :
    Except SubmitError RequestFacade × Multiplexer :=
  if v.wellFormed configuration.uri = false then (Except.error SubmitError.InvalidRequest, m)
  else
    let handle : Handle :=
      applySslOptions
        { method := Method.put, url := configuration.uri, header := configuration.header,
          ssl_verify_host := disable, ssl_verify_peer := disable,
          body := BodySource.stream size }
        configuration
    match resolveCredentials handle configuration with
    | Except.error e => (Except.error e, m)
    | Except.ok handle => registerHandle m handle

/-- `Client::base64_encode` as the `const` member function it is: the client
state (the multiplexer is the only member) is passed and returned; the
method reads no member and mutates nothing. -/
def Client.base64_encode_m (c : Multiplexer) (s : Bytes) : Bytes × Multiplexer :=
  (base64_encode s, c)

/-- `Client::base64_decode` as the `const` member function it is. -/
def Client.base64_decode_m (c : Multiplexer) (s : Bytes) : Option Bytes × Multiplexer :=
  (base64_decode s, c)

/-- Reference definition, written from the spec's words, for claim C5:
"standard RFC 4648 base64 with `=` padding".  Each 3-byte group becomes four
digits; a trailing 1-byte group becomes two digits plus `"=="`; a trailing
2-byte group becomes three digits plus `"="` (RFC 4648 section 4, with the
standard alphabet). -/
def rfc4648_encode : Bytes → Bytes
  | [] => []
  | [b1] => [from_6_bit (b1 / 4), from_6_bit (b1 % 4 * 16), 61, 61]
  | [b1, b2] =>
    [from_6_bit (b1 / 4), from_6_bit (b1 % 4 * 16 + b2 / 16), from_6_bit (b2 % 16 * 4), 61]
  | b1 :: b2 :: b3 :: rest =>
    from_6_bit (b1 / 4) :: from_6_bit (b1 % 4 * 16 + b2 / 16) ::
    from_6_bit (b2 % 16 * 4 + b3 / 64) :: from_6_bit (b3 % 64) :: rfc4648_encode rest

/-- A concrete URL validator for instantiating the theorems below: it rejects
exactly the empty URL (the one requirement the spec imposes on the
validator). -/
def sampleValidator : UrlValidator := ⟨fun u => u != "", by decide⟩

/-- A concrete configuration with a plain URL, default TLS flags and no
authentication handler. -/
def sampleConfig : Configuration := { uri := "http://example.com" }

/-- A concrete credential resolver that always yields the same pair. -/
def sampleResolver : String → Except String Credentials :=
  fun _ => Except.ok { username := "user", password := "secret" }

/-- `sampleConfig` with `sampleResolver` installed as authentication handler. -/
def sampleAuthConfig : Configuration :=
  { uri := "http://example.com", authentication_handler := Option.some sampleResolver }

/-! ## Lemmas about the bit-stream primitives -/

theorem natBits_length (w n : Nat) : (natBits w n).length = w := by
  induction w generalizing n with
  | zero => rfl
  | succ w ih => simp [natBits, ih]

theorem bitsToNat_lt (l : List Bool) : bitsToNat l < 2 ^ l.length := by
  induction l with
  | nil => simp [bitsToNat]
  | cons b bs ih => cases b <;> simp [bitsToNat, pow_succ] <;> omega

theorem bitsToNat_append (l1 l2 : List Bool) :
    bitsToNat (l1 ++ l2) = bitsToNat l1 * 2 ^ l2.length + bitsToNat l2 := by
  induction l1 with
  | nil => simp [bitsToNat]
  | cons b bs ih =>
    simp only [List.cons_append, bitsToNat, ih, List.append_eq, List.length_append, pow_add]
    ring

theorem bitsToNat_replicate_false (k : Nat) : bitsToNat (List.replicate k false) = 0 := by
  induction k with
  | zero => rfl
  | succ k ih => simp [List.replicate_succ, bitsToNat, ih]

theorem bitsToNat_natBits (w n : Nat) : bitsToNat (natBits w n) = n % 2 ^ w := by
  induction w with
  | zero => simp [natBits, bitsToNat, Nat.mod_one]
  | succ w ih =>
    have ht : (cond (n.testBit w) 1 0) = n / 2 ^ w % 2 := by
      rw [Nat.testBit_to_div_mod]
      rcases Nat.mod_two_eq_zero_or_one (n / 2 ^ w) with h | h <;> simp [h]
    simp only [natBits, bitsToNat, natBits_length, ht, ih, Nat.mod_pow_succ]
    ring

theorem natBits_bitsToNat_gen (l : List Bool) :
    ∀ k : Nat, natBits l.length (k * 2 ^ l.length + bitsToNat l) = l := by
  induction l with
  | nil => intro k; rfl
  | cons b bs ih =>
    intro k
    have hb : bitsToNat bs < 2 ^ bs.length := bitsToNat_lt bs
    have hV : k * 2 ^ (b :: bs).length + bitsToNat (b :: bs)
        = (2 * k + cond b 1 0) * 2 ^ bs.length + bitsToNat bs := by
      simp only [bitsToNat, List.length_cons, pow_succ]
      ring
    rw [hV, List.length_cons]
    have hdiv : ((2 * k + cond b 1 0) * 2 ^ bs.length + bitsToNat bs) / 2 ^ bs.length
        = 2 * k + cond b 1 0 := by
      rw [Nat.add_comm, Nat.mul_comm, Nat.add_mul_div_left _ _ (Nat.pos_pow_of_pos _ (by omega)),
        Nat.div_eq_of_lt hb]
      omega
    have hhead : ((2 * k + cond b 1 0) * 2 ^ bs.length + bitsToNat bs).testBit bs.length = b := by
      rw [Nat.testBit_to_div_mod, hdiv]
      cases b
      · simp
      · simp
        omega
    simp only [natBits, hhead]
    congr 1
    exact ih (2 * k + cond b 1 0)

theorem natBits_bitsToNat (l : List Bool) : natBits l.length (bitsToNat l) = l := by
  have h := natBits_bitsToNat_gen l 0
  simpa using h

theorem natBits_split (w1 w2 n : Nat) :
    natBits (w1 + w2) n = natBits w1 (n / 2 ^ w2) ++ natBits w2 n := by
  induction w1 with
  | zero => simp [natBits]
  | succ w1 ih =>
    have h1 : w1 + 1 + w2 = (w1 + w2) + 1 := by omega
    rw [h1]
    simp only [natBits, List.cons_append, ih]
    congr 1
    rw [← Nat.shiftRight_eq_div_pow, Nat.testBit_shiftRight, Nat.add_comm w2 w1]

/-! ## Lemmas about the 6-bit / 8-bit regrouping -/

theorem chunk6_append_six (h6 t : List Bool) (hh : h6.length = 6) :
    chunk6 (h6 ++ t) = bitsToNat h6 :: chunk6 t := by
  rcases h6 with _ | ⟨x1, h6⟩; · simp at hh
  rcases h6 with _ | ⟨x2, h6⟩; · simp at hh
  rcases h6 with _ | ⟨x3, h6⟩; · simp at hh
  rcases h6 with _ | ⟨x4, h6⟩; · simp at hh
  rcases h6 with _ | ⟨x5, h6⟩; · simp at hh
  rcases h6 with _ | ⟨x6, h6⟩; · simp at hh
  rcases h6 with _ | ⟨x7, h6⟩
  · rfl
  · simp at hh

theorem chunk6_flatMap (l : List Bool) :
    (chunk6 l).flatMap (natBits 6)
      = l ++ List.replicate ((6 - l.length % 6) % 6) false := by
  induction l using chunk6.induct with
  | case1 => rfl
  | case2 b1 b2 b3 b4 b5 b6 rest ih =>
    have h6 := natBits_bitsToNat [b1, b2, b3, b4, b5, b6]
    simp only [List.length_cons, List.length_nil, Nat.zero_add] at h6
    have hp : (6 - rest.length % 6) % 6
        = (6 - (b1 :: b2 :: b3 :: b4 :: b5 :: b6 :: rest).length % 6) % 6 := by
      simp only [List.length_cons]
      omega
    simp only [chunk6, List.flatMap_cons, h6, ih, hp, List.cons_append, List.nil_append,
      List.append_assoc]
  | case3 b1 => cases b1 <;> decide
  | case4 b1 b2 => cases b1 <;> cases b2 <;> decide
  | case5 b1 b2 b3 => cases b1 <;> cases b2 <;> cases b3 <;> decide
  | case6 b1 b2 b3 b4 => cases b1 <;> cases b2 <;> cases b3 <;> cases b4 <;> decide
  | case7 b1 b2 b3 b4 b5 =>
    cases b1 <;> cases b2 <;> cases b3 <;> cases b4 <;> cases b5 <;> decide

theorem chunk6_lt (l : List Bool) : ∀ g ∈ chunk6 l, g < 64 := by
  induction l using chunk6.induct with
  | case1 => simp [chunk6]
  | case2 b1 b2 b3 b4 b5 b6 rest ih =>
    intro g hg
    simp only [chunk6, List.mem_cons] at hg
    rcases hg with hg | hg
    · subst hg
      have := bitsToNat_lt [b1, b2, b3, b4, b5, b6]
      simpa using this
    · exact ih g hg
  | case3 b1 => cases b1 <;> decide
  | case4 b1 b2 => cases b1 <;> cases b2 <;> decide
  | case5 b1 b2 b3 => cases b1 <;> cases b2 <;> cases b3 <;> decide
  | case6 b1 b2 b3 b4 => cases b1 <;> cases b2 <;> cases b3 <;> cases b4 <;> decide
  | case7 b1 b2 b3 b4 b5 =>
    cases b1 <;> cases b2 <;> cases b3 <;> cases b4 <;> cases b5 <;> decide

theorem chunk6_length (l : List Bool) : (chunk6 l).length = (l.length + 5) / 6 := by
  induction l using chunk6.induct with
  | case1 => rfl
  | case2 b1 b2 b3 b4 b5 b6 rest ih =>
    simp only [chunk6, List.length_cons, ih]
    omega
  | case3 b1 => simp [chunk6]
  | case4 b1 b2 => simp [chunk6]
  | case5 b1 b2 b3 => simp [chunk6]
  | case6 b1 b2 b3 b4 => simp [chunk6]
  | case7 b1 b2 b3 b4 b5 => simp [chunk6]

theorem chunk8_short (l : List Bool) (h : l.length < 8) : chunk8 l = [] := by
  rcases l with _ | ⟨a1, l⟩; · rfl
  rcases l with _ | ⟨a2, l⟩; · rfl
  rcases l with _ | ⟨a3, l⟩; · rfl
  rcases l with _ | ⟨a4, l⟩; · rfl
  rcases l with _ | ⟨a5, l⟩; · rfl
  rcases l with _ | ⟨a6, l⟩; · rfl
  rcases l with _ | ⟨a7, l⟩; · rfl
  rcases l with _ | ⟨a8, l⟩
  · rfl
  · simp only [List.length_cons] at h
    omega

theorem flatMap_natBits8_length (s : Bytes) : (s.flatMap (natBits 8)).length = 8 * s.length := by
  induction s with
  | nil => rfl
  | cons b bs ih =>
    simp only [List.flatMap_cons, List.length_append, natBits_length, ih, List.length_cons]
    ring

theorem chunk8_bytes (s : Bytes) (h : ∀ b ∈ s, b < 256) (pad : List Bool)
    (hp : pad.length < 8) :
    chunk8 (s.flatMap (natBits 8) ++ pad) = s := by
  induction s with
  | nil => simpa using chunk8_short pad hp
  | cons b bs ih =>
    have hb : b < 256 := h b (by simp)
    have hbs : ∀ x ∈ bs, x < 256 := fun x hx => h x (by simp [hx])
    have hnb : natBits 8 b
        = [b.testBit 7, b.testBit 6, b.testBit 5, b.testBit 4,
           b.testBit 3, b.testBit 2, b.testBit 1, b.testBit 0] := rfl
    have hval : bitsToNat [b.testBit 7, b.testBit 6, b.testBit 5, b.testBit 4,
        b.testBit 3, b.testBit 2, b.testBit 1, b.testBit 0] = b := by
      have h8 := bitsToNat_natBits 8 b
      rw [hnb] at h8
      rw [h8, Nat.mod_eq_of_lt (by norm_num [hb])]
    have hsplit : (b :: bs).flatMap (natBits 8) ++ pad
        = b.testBit 7 :: b.testBit 6 :: b.testBit 5 :: b.testBit 4 ::
          b.testBit 3 :: b.testBit 2 :: b.testBit 1 :: b.testBit 0 ::
          (bs.flatMap (natBits 8) ++ pad) := by
      rw [List.flatMap_cons, hnb]
      simp [List.cons_append, List.append_assoc]
    rw [hsplit]
    show bitsToNat [b.testBit 7, b.testBit 6, b.testBit 5, b.testBit 4,
        b.testBit 3, b.testBit 2, b.testBit 1, b.testBit 0]
      :: chunk8 (bs.flatMap (natBits 8) ++ pad) = b :: bs
    rw [hval, ih hbs]

/-! ## Lemmas about the base64 alphabet -/

theorem binary_from_6_bit : ∀ v : Nat, v < 64 → binary_from_base64 (from_6_bit v) = some v := by
  decide

theorem from_6_bit_ne_61 : ∀ v : Nat, v < 64 → from_6_bit v ≠ 61 := by
  decide

theorem lookupAll_map_from_6_bit (gs : List Nat) (h : ∀ g ∈ gs, g < 64) :
    lookupAll (gs.map from_6_bit) = some gs := by
  induction gs with
  | nil => rfl
  | cons g gs ih =>
    have h1 : binary_from_base64 (from_6_bit g) = some g := binary_from_6_bit g (h g (by simp))
    have h2 := ih (fun x hx => h x (by simp [hx]))
    simp [lookupAll, h1, h2]

theorem map_from_6_bit_ne_61 (l : List Bool) :
    ∀ c ∈ (chunk6 l).map from_6_bit, c ≠ 61 := by
  intro c hc
  rcases List.mem_map.1 hc with ⟨g, hg, rfl⟩
  exact from_6_bit_ne_61 g (chunk6_lt l g hg)

/-! ## Lemmas about the padding strip -/

theorem stripSize_no_61 (l : Bytes) (h : ∀ c ∈ l, c ≠ 61) : stripSize l = l.length := by
  unfold stripSize
  rcases Nat.eq_zero_or_pos l.length with h0 | h0
  · rw [if_neg]
    rintro ⟨hc, -⟩
    exact hc h0
  · have hlt : l.length - 1 < l.length := by omega
    have hg : l.getD (l.length - 1) 0 ∈ l := by
      rw [List.getD_eq_getElem l 0 hlt]
      exact List.getElem_mem hlt
    rw [if_neg]
    rintro ⟨-, hc⟩
    exact h _ hg hc

theorem stripSize_two_eq (t : Bytes) : stripSize (t ++ [61, 61]) = t.length := by
  have h1 : (t ++ [61, 61]).getD (t.length + 1) 0 = 61 := by
    rw [List.getD_append_right t [61, 61] 0 (t.length + 1) (by omega)]
    have e : t.length + 1 - t.length = 1 := by omega
    rw [e]
    rfl
  have h2 : (t ++ [61, 61]).getD t.length 0 = 61 := by
    rw [List.getD_append_right t [61, 61] 0 t.length (by omega)]
    simp
  unfold stripSize
  rw [List.length_append]
  have e1 : t.length + [61, 61].length - 1 = t.length + 1 := by simp
  rw [e1]
  have e2 : t.length + 1 - 1 = t.length := by omega
  rw [e2]
  rw [if_pos ⟨by simp, h1⟩, if_pos ⟨by omega, h2⟩]

theorem stripSize_one_eq (t : Bytes) (h : ∀ c ∈ t, c ≠ 61) :
    stripSize (t ++ [61]) = t.length := by
  rcases Nat.eq_zero_or_pos t.length with h0 | h0
  · rw [List.eq_nil_of_length_eq_zero h0]
    rfl
  · have h1 : (t ++ [61]).getD t.length 0 = 61 := by
      rw [List.getD_append_right t [61] 0 t.length (by omega)]
      simp
    have hlt : t.length - 1 < t.length := by omega
    have h2 : (t ++ [61]).getD (t.length - 1) 0 ∈ t := by
      rw [List.getD_append t [61] 0 (t.length - 1) hlt, List.getD_eq_getElem t 0 hlt]
      exact List.getElem_mem hlt
    unfold stripSize
    rw [List.length_append]
    have e1 : t.length + [61].length - 1 = t.length := by simp
    rw [e1, if_pos ⟨by omega, h1⟩, if_neg]
    rintro ⟨-, hc⟩
    exact h _ h2 hc

theorem stripSize_encode (s : Bytes) :
    stripSize (base64_encode s)
      = ((chunk6 (s.flatMap (natBits 8))).map from_6_bit).length := by
  have hne := map_from_6_bit_ne_61 (s.flatMap (natBits 8))
  have h3 : s.length % 3 = 0 ∨ s.length % 3 = 1 ∨ s.length % 3 = 2 := by omega
  rcases h3 with h3 | h3 | h3
  · have hpad : base64_encode s = (chunk6 (s.flatMap (natBits 8))).map from_6_bit := by
      simp only [base64_encode, h3]
      simp [BASE64_PADDING]
    rw [hpad]
    exact stripSize_no_61 _ hne
  · have hpad : base64_encode s
        = (chunk6 (s.flatMap (natBits 8))).map from_6_bit ++ [61, 61] := by
      simp only [base64_encode, h3]
      rfl
    rw [hpad]
    exact stripSize_two_eq _
  · have hpad : base64_encode s
        = (chunk6 (s.flatMap (natBits 8))).map from_6_bit ++ [61] := by
      simp only [base64_encode, h3]
      rfl
    rw [hpad]
    exact stripSize_one_eq _ hne

/-! ## Claim C1 -/

/-- Claim C1: for every byte string `s` (each byte `< 256`, as for any C++
`std::string`), decoding the base64 encoding of `s` succeeds and returns
exactly `s` — for the empty string and inputs of every length modulo 3. -/
theorem base64_roundtrip (s : Bytes) (h : ∀ b ∈ s, b < 256) :
    base64_decode (base64_encode s) = some s := by
  by_cases hsnil : s = []
  · subst hsnil
    rfl
  · have hn : 0 < s.length := List.length_pos.2 hsnil
    have hstrip : stripSize (base64_encode s)
        = ((chunk6 (s.flatMap (natBits 8))).map from_6_bit).length := stripSize_encode s
    have hRlen : ((chunk6 (s.flatMap (natBits 8))).map from_6_bit).length
        = (8 * s.length + 5) / 6 := by
      rw [List.length_map, chunk6_length, flatMap_natBits8_length]
    have hR0 : ¬ ((chunk6 (s.flatMap (natBits 8))).map from_6_bit).length = 0 := by
      rw [hRlen]
      omega
    have hR4 : ¬ ((chunk6 (s.flatMap (natBits 8))).map from_6_bit).length % 4 = 1 := by
      rw [hRlen]
      omega
    have htake : (base64_encode s).take
          ((chunk6 (s.flatMap (natBits 8))).map from_6_bit).length
        = (chunk6 (s.flatMap (natBits 8))).map from_6_bit := by
      simp only [base64_encode]
      exact List.take_left _ _
    have hlook : lookupAll ((chunk6 (s.flatMap (natBits 8))).map from_6_bit)
        = some (chunk6 (s.flatMap (natBits 8))) :=
      lookupAll_map_from_6_bit _ (chunk6_lt _)
    have hmain : chunk8 ((chunk6 (s.flatMap (natBits 8))).flatMap (natBits 6)) = s := by
      rw [chunk6_flatMap]
      exact chunk8_bytes s h _ (by rw [List.length_replicate]; omega)
    simp only [base64_decode, hstrip, if_neg hR0, if_neg hR4, htake, hlook, hmain]

/-- Witness for C1 at the concrete input `"hi!"`. -/
theorem base64_roundtrip_witness :
    base64_decode (base64_encode [104, 105, 33]) = some [104, 105, 33] :=
  base64_roundtrip [104, 105, 33] (by decide)

/-! ## Claim C5: the encoder against RFC 4648 -/

theorem natBits8_split62 (b : Nat) : natBits 8 b = natBits 6 (b / 4) ++ natBits 2 b := by
  have h := natBits_split 6 2 b
  norm_num at h
  exact h

theorem natBits8_split44 (b : Nat) : natBits 8 b = natBits 4 (b / 16) ++ natBits 4 b := by
  have h := natBits_split 4 4 b
  norm_num at h
  exact h

theorem natBits8_split26 (b : Nat) : natBits 8 b = natBits 2 (b / 64) ++ natBits 6 b := by
  have h := natBits_split 2 6 b
  norm_num at h
  exact h

theorem chunk6_block (b1 b2 b3 : Nat) (h1 : b1 < 256) (h2 : b2 < 256) (h3 : b3 < 256)
    (t : List Bool) :
    chunk6 (natBits 8 b1 ++ (natBits 8 b2 ++ (natBits 8 b3 ++ t)))
      = b1 / 4 :: (b1 % 4 * 16 + b2 / 16) :: (b2 % 16 * 4 + b3 / 64) :: b3 % 64
        :: chunk6 t := by
  rw [natBits8_split62 b1, natBits8_split44 b2, natBits8_split26 b3]
  have hassoc :
      (natBits 6 (b1 / 4) ++ natBits 2 b1)
        ++ ((natBits 4 (b2 / 16) ++ natBits 4 b2)
          ++ ((natBits 2 (b3 / 64) ++ natBits 6 b3) ++ t))
      = natBits 6 (b1 / 4)
        ++ ((natBits 2 b1 ++ natBits 4 (b2 / 16))
          ++ ((natBits 4 b2 ++ natBits 2 (b3 / 64)) ++ (natBits 6 b3 ++ t))) := by
    simp [List.append_assoc]
  rw [hassoc]
  rw [chunk6_append_six _ _ (by simp [natBits_length])]
  rw [chunk6_append_six _ _ (by simp [natBits_length])]
  rw [chunk6_append_six _ _ (by simp [natBits_length])]
  rw [chunk6_append_six _ _ (by simp [natBits_length])]
  have v1 : bitsToNat (natBits 6 (b1 / 4)) = b1 / 4 := by
    rw [bitsToNat_natBits, show (2 : Nat) ^ 6 = 64 from by norm_num]
    omega
  have v2 : bitsToNat (natBits 2 b1 ++ natBits 4 (b2 / 16)) = b1 % 4 * 16 + b2 / 16 := by
    rw [bitsToNat_append, natBits_length, bitsToNat_natBits, bitsToNat_natBits,
      show (2 : Nat) ^ 2 = 4 from by norm_num, show (2 : Nat) ^ 4 = 16 from by norm_num]
    omega
  have v3 : bitsToNat (natBits 4 b2 ++ natBits 2 (b3 / 64)) = b2 % 16 * 4 + b3 / 64 := by
    rw [bitsToNat_append, natBits_length, bitsToNat_natBits, bitsToNat_natBits,
      show (2 : Nat) ^ 2 = 4 from by norm_num, show (2 : Nat) ^ 4 = 16 from by norm_num]
    omega
  have v4 : bitsToNat (natBits 6 b3) = b3 % 64 := by
    rw [bitsToNat_natBits, show (2 : Nat) ^ 6 = 64 from by norm_num]
  rw [v1, v2, v3, v4]

theorem encode_eq_rfc (s : Bytes) (h : ∀ b ∈ s, b < 256) :
    base64_encode s = rfc4648_encode s := by
  induction s using rfc4648_encode.induct with
  | case1 => rfl
  | case2 b1 =>
    have hb1 : b1 < 256 := h b1 (by simp)
    have hc : chunk6 (natBits 8 b1) = [b1 / 4, b1 % 4 * 16] := by
      rw [natBits8_split62 b1]
      rw [chunk6_append_six _ _ (by simp [natBits_length])]
      have e : chunk6 (natBits 2 b1) = [bitsToNat (natBits 2 b1 ++ List.replicate 4 false)] :=
        rfl
      rw [e]
      have v : bitsToNat (natBits 2 b1 ++ List.replicate 4 false) = b1 % 4 * 16 := by
        rw [bitsToNat_append, bitsToNat_replicate_false, List.length_replicate,
          bitsToNat_natBits, show (2 : Nat) ^ 2 = 4 from by norm_num,
          show (2 : Nat) ^ 4 = 16 from by norm_num]
        omega
      have v1 : bitsToNat (natBits 6 (b1 / 4)) = b1 / 4 := by
        rw [bitsToNat_natBits, show (2 : Nat) ^ 6 = 64 from by norm_num]
        omega
      rw [v, v1]
    simp only [base64_encode, List.flatMap_cons, List.flatMap_nil, List.append_nil, hc]
    rfl
  | case3 b1 b2 =>
    have hb1 : b1 < 256 := h b1 (by simp)
    have hb2 : b2 < 256 := h b2 (by simp)
    have hc : chunk6 (natBits 8 b1 ++ natBits 8 b2)
        = [b1 / 4, b1 % 4 * 16 + b2 / 16, b2 % 16 * 4] := by
      rw [natBits8_split62 b1, natBits8_split44 b2]
      have hassoc : (natBits 6 (b1 / 4) ++ natBits 2 b1)
            ++ (natBits 4 (b2 / 16) ++ natBits 4 b2)
          = natBits 6 (b1 / 4) ++ ((natBits 2 b1 ++ natBits 4 (b2 / 16)) ++ natBits 4 b2) := by
        simp [List.append_assoc]
      rw [hassoc]
      rw [chunk6_append_six _ _ (by simp [natBits_length])]
      rw [chunk6_append_six _ _ (by simp [natBits_length])]
      have e : chunk6 (natBits 4 b2) = [bitsToNat (natBits 4 b2 ++ List.replicate 2 false)] :=
        rfl
      rw [e]
      have v1 : bitsToNat (natBits 6 (b1 / 4)) = b1 / 4 := by
        rw [bitsToNat_natBits, show (2 : Nat) ^ 6 = 64 from by norm_num]
        omega
      have v2 : bitsToNat (natBits 2 b1 ++ natBits 4 (b2 / 16)) = b1 % 4 * 16 + b2 / 16 := by
        rw [bitsToNat_append, natBits_length, bitsToNat_natBits, bitsToNat_natBits,
          show (2 : Nat) ^ 2 = 4 from by norm_num, show (2 : Nat) ^ 4 = 16 from by norm_num]
        omega
      have v3 : bitsToNat (natBits 4 b2 ++ List.replicate 2 false) = b2 % 16 * 4 := by
        rw [bitsToNat_append, bitsToNat_replicate_false, List.length_replicate,
          bitsToNat_natBits, show (2 : Nat) ^ 2 = 4 from by norm_num,
          show (2 : Nat) ^ 4 = 16 from by norm_num]
        omega
      rw [v1, v2, v3]
    simp only [base64_encode, List.flatMap_cons, List.flatMap_nil, List.append_nil, hc]
    rfl
  | case4 b1 b2 b3 rest ih =>
    have hb1 : b1 < 256 := h b1 (by simp)
    have hb2 : b2 < 256 := h b2 (by simp)
    have hb3 : b3 < 256 := h b3 (by simp)
    have hrest : ∀ b ∈ rest, b < 256 := fun b hb => h b (by simp [hb])
    have hflat : (b1 :: b2 :: b3 :: rest).flatMap (natBits 8)
        = natBits 8 b1 ++ (natBits 8 b2 ++ (natBits 8 b3 ++ rest.flatMap (natBits 8))) := by
      simp [List.flatMap_cons]
    have hc := chunk6_block b1 b2 b3 hb1 hb2 hb3 (rest.flatMap (natBits 8))
    have hlen : (b1 :: b2 :: b3 :: rest).length % 3 = rest.length % 3 := by
      simp only [List.length_cons]
      omega
    simp only [base64_encode, hflat, hc, List.map_cons, hlen, List.cons_append]
    have htail : (chunk6 (rest.flatMap (natBits 8))).map from_6_bit
        ++ BASE64_PADDING.getD (rest.length % 3) [] = base64_encode rest := rfl
    rw [htail, ih hrest]
    rfl

/-- Claim C5: `base64_encode` is the RFC 4648 base64 encoding with `=`
padding, where the appended padding string is selected by lookup in
`BASE64_PADDING` at index `s.length % 3` (`""`, `"=="`, `"="` for 0, 1, 2
respectively); in particular `base64_encode [] = []`, the encoding of a
1-byte-tail input ends with `"=="`, of a 2-byte-tail input with exactly one
`"="`, and a length-multiple-of-3 input has no padding at all. -/
theorem base64_encode_rfc4648 (s : Bytes) (h : ∀ b ∈ s, b < 256) :
    base64_encode s = rfc4648_encode s
    ∧ base64_encode s
        = (chunk6 (s.flatMap (natBits 8))).map from_6_bit
          ++ BASE64_PADDING.getD (s.length % 3) []
    ∧ base64_encode [] = []
    ∧ (s.length % 3 = 0 → ∀ c ∈ base64_encode s, c ≠ 61)
    ∧ (s.length % 3 = 1 → ∃ t, base64_encode s = t ++ [61, 61] ∧ ∀ c ∈ t, c ≠ 61)
    ∧ (s.length % 3 = 2 → ∃ t, base64_encode s = t ++ [61] ∧ ∀ c ∈ t, c ≠ 61) := by
  refine ⟨encode_eq_rfc s h, rfl, rfl, ?_, ?_, ?_⟩
  · intro h3 c hc
    have hpad : base64_encode s = (chunk6 (s.flatMap (natBits 8))).map from_6_bit := by
      simp only [base64_encode, h3]
      simp [BASE64_PADDING]
    rw [hpad] at hc
    exact map_from_6_bit_ne_61 _ c hc
  · intro h3
    refine ⟨(chunk6 (s.flatMap (natBits 8))).map from_6_bit, ?_, map_from_6_bit_ne_61 _⟩
    simp only [base64_encode, h3]
    rfl
  · intro h3
    refine ⟨(chunk6 (s.flatMap (natBits 8))).map from_6_bit, ?_, map_from_6_bit_ne_61 _⟩
    simp only [base64_encode, h3]
    rfl

/-- Witness for C5 at the concrete 2-byte input `[1, 2]`. -/
theorem base64_encode_rfc4648_witness :
    base64_encode [1, 2] = rfc4648_encode [1, 2] :=
  (base64_encode_rfc4648 [1, 2] (by decide)).1

/-! ## Claim C6 -/

/-- Claim C6: `base64_decode` strips at most two trailing `'='` characters
before decoding (the effective length is between `s.length - 2` and
`s.length`), and whenever the effective input after stripping is empty — in
particular for `""`, `"="` and `"=="` — it returns the empty string rather
than signalling an error. -/
theorem base64_decode_strip (s : Bytes) :
    s.length - 2 ≤ stripSize s
    ∧ stripSize s ≤ s.length
    ∧ (stripSize s = 0 → base64_decode s = some [])
    ∧ base64_decode [] = some []
    ∧ base64_decode [61] = some []
    ∧ base64_decode [61, 61] = some [] := by
  refine ⟨?_, ?_, ?_, rfl, rfl, rfl⟩
  · unfold stripSize
    split_ifs <;> omega
  · unfold stripSize
    split_ifs <;> omega
  · intro h0
    simp only [base64_decode, h0]
    rfl

/-- Witness for C6 at the concrete input `"=="`. -/
theorem base64_decode_strip_witness : base64_decode [61, 61] = some [] :=
  (base64_decode_strip [61, 61]).2.2.1 (by decide)

/-! ## Claim C2 -/

/-- Claim C2 (code bug): the `on_read_data` lambda calls
`payload.readsome(dest, size)` with the *declared total* size, so a single
callback invocation can read more than the destination buffer holds and more
than the space remaining within the declared size; across invocations the
engine can pull more than `size` bytes in total from the stream.
Concretely, with declared `size = 2` and a stream that offers 1 byte now and
2 bytes later, the pump pulls 3 bytes; and with a 1-byte destination buffer
(`in_size = nmemb = 1`) a single invocation hands back 2 bytes.  The
`size = 0` part of the claim does hold: the pump never invokes the source. -/
theorem put_read_callback_bug :
    (put_pull { chunks := [[65], [66, 67]] } 2 1 1).1 = [65, 66, 67]
    ∧ 2 < ([65, 66, 67] : Bytes).length
    ∧ (on_read_data 2 { chunks := [[65, 66]] } 1 1).1.length = 2
    ∧ 1 * 1 < 2
    ∧ (∀ st : IStream, ∀ in_size nmemb : Nat, put_pull st 0 in_size nmemb = ([], st)) :=
  ⟨by decide, by decide, by decide, by decide, fun st i n => rfl⟩

/-! ## Claim C3 -/

/-- Claim C3: whenever the configuration carries an authentication handler,
every submission (`head`, `get`, `post`, `put`) invokes it synchronously
with the configured URL (the outcome depends on the handler only through its
value at `configuration.uri`); credentials it yields are attached to the
registered handle; and if it raises, the error propagates synchronously as
`CredentialResolutionFailed`, aborting handle creation with no handle
registered with the multiplexer. -/
theorem auth_handler_resolution (v : UrlValidator) (m : Multiplexer) (cfg : Configuration)
    (payload : Bytes) (ct : String) (size : Nat)
    (f : String → Except String Credentials)
    (hw : v.wellFormed cfg.uri = true)
    (hf : cfg.authentication_handler = Option.some f) :
    (∀ cr : Credentials, f cfg.uri = Except.ok cr →
      (∃ r, Client.head v m cfg = (Except.ok r, { m with handles := m.handles ++ [r.handle] })
        ∧ r.handle.credentials = Option.some cr)
      ∧ (∃ r, Client.get v m cfg = (Except.ok r, { m with handles := m.handles ++ [r.handle] })
        ∧ r.handle.credentials = Option.some cr)
      ∧ (∃ r, Client.post v m cfg payload ct
            = (Except.ok r, { m with handles := m.handles ++ [r.handle] })
        ∧ r.handle.credentials = Option.some cr)
      ∧ (∃ r, Client.put v m cfg size
            = (Except.ok r, { m with handles := m.handles ++ [r.handle] })
        ∧ r.handle.credentials = Option.some cr))
    ∧ (∀ e : String, f cfg.uri = Except.error e →
      Client.head v m cfg = (Except.error (SubmitError.CredentialResolutionFailed e), m)
      ∧ Client.get v m cfg = (Except.error (SubmitError.CredentialResolutionFailed e), m)
      ∧ Client.post v m cfg payload ct
          = (Except.error (SubmitError.CredentialResolutionFailed e), m)
      ∧ Client.put v m cfg size
          = (Except.error (SubmitError.CredentialResolutionFailed e), m))
    ∧ (∀ g : String → Except String Credentials, f cfg.uri = g cfg.uri →
      Client.head v m cfg
          = Client.head v m { cfg with authentication_handler := Option.some g }
      ∧ Client.get v m cfg
          = Client.get v m { cfg with authentication_handler := Option.some g }
      ∧ Client.post v m cfg payload ct
          = Client.post v m { cfg with authentication_handler := Option.some g } payload ct
      ∧ Client.put v m cfg size
          = Client.put v m { cfg with authentication_handler := Option.some g } size) := by
  refine ⟨fun cr hok => ?_, fun e herr => ?_, fun g hfg => ?_⟩
  · simp only [Client.head, Client.get, Client.post, Client.put, resolveCredentials,
      registerHandle, hw, hf, hok]
    exact ⟨⟨_, rfl, rfl⟩, ⟨_, rfl, rfl⟩, ⟨_, rfl, rfl⟩, ⟨_, rfl, rfl⟩⟩
  · simp only [Client.head, Client.get, Client.post, Client.put, resolveCredentials,
      registerHandle, hw, hf, herr]
    exact ⟨rfl, rfl, rfl, rfl⟩
  · simp only [Client.head, Client.get, Client.post, Client.put, resolveCredentials,
      registerHandle, hw, hf, hfg]
    exact ⟨rfl, rfl, rfl, rfl⟩

/-- Witness for C3: the sample resolver's credentials are attached. -/
theorem auth_handler_resolution_witness :
    ∃ r, Client.head sampleValidator {} sampleAuthConfig
        = (Except.ok r, { handles := [r.handle] })
      ∧ r.handle.credentials
          = Option.some { username := "user", password := "secret" } := by
  have h := (auth_handler_resolution sampleValidator {} sampleAuthConfig [] "" 0
    sampleResolver (by decide) rfl).1
      { username := "user", password := "secret" } rfl
  rcases h.1 with ⟨r, hr, hcr⟩
  exact ⟨r, by simpa using hr, hcr⟩

/-! ## Claim C4 -/

/-- Claim C4: for every submission, a configuration whose URL fails the
well-formedness check — in particular the empty URL — fails synchronously
with `InvalidRequest`, producing no request facade and leaving the
multiplexer untouched; a well-formed URL (with no failing resolver in the
way) yields a request object. -/
theorem invalid_url_rejected (v : UrlValidator) (m : Multiplexer) (cfg : Configuration)
    (payload : Bytes) (ct : String) (size : Nat) :
    (v.wellFormed cfg.uri = false →
      Client.head v m cfg = (Except.error SubmitError.InvalidRequest, m)
      ∧ Client.get v m cfg = (Except.error SubmitError.InvalidRequest, m)
      ∧ Client.post v m cfg payload ct = (Except.error SubmitError.InvalidRequest, m)
      ∧ Client.put v m cfg size = (Except.error SubmitError.InvalidRequest, m))
    ∧ (cfg.uri = "" →
      Client.head v m cfg = (Except.error SubmitError.InvalidRequest, m)
      ∧ Client.get v m cfg = (Except.error SubmitError.InvalidRequest, m)
      ∧ Client.post v m cfg payload ct = (Except.error SubmitError.InvalidRequest, m)
      ∧ Client.put v m cfg size = (Except.error SubmitError.InvalidRequest, m))
    ∧ (v.wellFormed cfg.uri = true → cfg.authentication_handler = Option.none →
      (∃ r, (Client.head v m cfg).1 = Except.ok r)
      ∧ (∃ r, (Client.get v m cfg).1 = Except.ok r)
      ∧ (∃ r, (Client.post v m cfg payload ct).1 = Except.ok r)
      ∧ (∃ r, (Client.put v m cfg size).1 = Except.ok r)) := by
  refine ⟨fun hbad => ?_, fun hempty => ?_, fun hw hauth => ?_⟩
  · simp only [Client.head, Client.get, Client.post, Client.put, hbad]
    exact ⟨rfl, rfl, rfl, rfl⟩
  · have hbad : v.wellFormed cfg.uri = false := by
      rw [hempty]
      exact v.empty_not_wellFormed
    simp only [Client.head, Client.get, Client.post, Client.put, hbad]
    exact ⟨rfl, rfl, rfl, rfl⟩
  · simp only [Client.head, Client.get, Client.post, Client.put, resolveCredentials,
      registerHandle, hw, hauth]
    exact ⟨⟨_, rfl⟩, ⟨_, rfl⟩, ⟨_, rfl⟩, ⟨_, rfl⟩⟩

/-- Witness for C4: the empty URL is rejected, a well-formed one accepted. -/
theorem invalid_url_rejected_witness :
    Client.get sampleValidator {} { uri := "" }
        = (Except.error SubmitError.InvalidRequest, ({} : Multiplexer))
    ∧ ∃ r, (Client.get sampleValidator {} sampleConfig).1 = Except.ok r := by
  refine ⟨((invalid_url_rejected sampleValidator {} { uri := "" } [] "" 0).2.1 rfl).2.1, ?_⟩
  exact ((invalid_url_rejected sampleValidator {} sampleConfig [] "" 0).2.2
    (by decide) rfl).2.1

/-! ## Claim C7 -/

/-- Claim C7: for every submission, the configuration's TLS flags map
directly and independently onto the handle's TLS options —
`ssl_verify_host` is `enable_ssl_host_verification`/`disable` exactly as
`config.ssl.verify_host` is set, `ssl_verify_peer` is `enable`/`disable`
exactly as `config.ssl.verify_peer` is set, the host option does not depend
on the peer flag (`verify_peer = false` with `verify_host = true` disables
only the peer check), and a default-constructed configuration yields
verify-on for both. -/
theorem ssl_flags_mapped (v : UrlValidator) (m : Multiplexer) (cfg : Configuration)
    (payload : Bytes) (ct : String) (size : Nat)
    (hw : v.wellFormed cfg.uri = true)
    (hauth : cfg.authentication_handler = Option.none) :
    (∃ r, (Client.head v m cfg).1 = Except.ok r
      ∧ r.handle.ssl_verify_host
          = (if cfg.ssl.verify_host then enable_ssl_host_verification else disable)
      ∧ r.handle.ssl_verify_peer = (if cfg.ssl.verify_peer then enable else disable))
    ∧ (∃ r, (Client.get v m cfg).1 = Except.ok r
      ∧ r.handle.ssl_verify_host
          = (if cfg.ssl.verify_host then enable_ssl_host_verification else disable)
      ∧ r.handle.ssl_verify_peer = (if cfg.ssl.verify_peer then enable else disable))
    ∧ (∃ r, (Client.post v m cfg payload ct).1 = Except.ok r
      ∧ r.handle.ssl_verify_host
          = (if cfg.ssl.verify_host then enable_ssl_host_verification else disable)
      ∧ r.handle.ssl_verify_peer = (if cfg.ssl.verify_peer then enable else disable))
    ∧ (∃ r, (Client.put v m cfg size).1 = Except.ok r
      ∧ r.handle.ssl_verify_host
          = (if cfg.ssl.verify_host then enable_ssl_host_verification else disable)
      ∧ r.handle.ssl_verify_peer = (if cfg.ssl.verify_peer then enable else disable))
    ∧ (∃ r, (Client.get v m
          { cfg with ssl := { verify_host := true, verify_peer := false } }).1 = Except.ok r
      ∧ r.handle.ssl_verify_host = enable_ssl_host_verification
      ∧ r.handle.ssl_verify_peer = disable)
    ∧ (∃ r, (Client.get v m { uri := cfg.uri }).1 = Except.ok r
      ∧ r.handle.ssl_verify_host = enable_ssl_host_verification
      ∧ r.handle.ssl_verify_peer = enable)
    ∧ (∀ hostFlag peer1 peer2 : Bool,
      ((Client.get v m { cfg with ssl := { verify_host := hostFlag, verify_peer := peer1 } }).1.map
          (fun r => r.handle.ssl_verify_host))
        = ((Client.get v m
            { cfg with ssl := { verify_host := hostFlag, verify_peer := peer2 } }).1.map
          (fun r => r.handle.ssl_verify_host))) := by
  refine ⟨?_, ?_, ?_, ?_, ?_, ?_, ?_⟩ <;>
    simp only [Client.head, Client.get, Client.post, Client.put, resolveCredentials,
      registerHandle, applySslOptions, hw, hauth]
  · exact ⟨_, rfl, rfl, rfl⟩
  · exact ⟨_, rfl, rfl, rfl⟩
  · exact ⟨_, rfl, rfl, rfl⟩
  · exact ⟨_, rfl, rfl, rfl⟩
  · exact ⟨_, rfl, rfl, rfl⟩
  · exact ⟨_, rfl, rfl, rfl⟩
  · intro hostFlag peer1 peer2
    rfl

/-- Witness for C7: `verify_peer = false, verify_host = true` on the sample
configuration disables only the peer check. -/
theorem ssl_flags_mapped_witness :
    ∃ r, (Client.get sampleValidator {}
        { sampleConfig with ssl := { verify_host := true, verify_peer := false } }).1
        = Except.ok r
      ∧ r.handle.ssl_verify_host = enable_ssl_host_verification
      ∧ r.handle.ssl_verify_peer = disable :=
  (ssl_flags_mapped sampleValidator {} sampleConfig [] "" 0 (by decide) rfl).2.2.2.2.1

/-! ## Claim C8 -/

/-- Counterexample to C8 as stated: the payload `"A\x00B"` (bytes
`[65, 0, 66]`) is *not* attached in full — `post` passes `payload.c_str()`,
so the attached body stops at the first embedded NUL byte and is `[65]`. -/
theorem post_body_counterexample :
    ((Client.post sampleValidator {} sampleConfig [65, 0, 66] "text/plain").1.map
        (fun r => r.handle.body))
      = Except.ok (BodySource.buffer [65] "text/plain")
    ∧ BodySource.buffer [65] "text/plain" ≠ BodySource.buffer [65, 0, 66] "text/plain" :=
  ⟨rfl, by decide⟩

/-- Claim C8 as amended: `post` attaches, together with the supplied
content-type header, the longest NUL-free leading run of the payload (the
bytes its `c_str()` exposes across the `const char*` boundary); hence a
payload without embedded NUL bytes — including the empty payload, which
yields a zero-length body with the content type still applied — is attached
in full. -/
theorem post_body_cstr (v : UrlValidator) (m : Multiplexer) (cfg : Configuration)
    (payload : Bytes) (ct : String)
    (hw : v.wellFormed cfg.uri = true)
    (hauth : cfg.authentication_handler = Option.none) :
    ∃ r, (Client.post v m cfg payload ct).1 = Except.ok r
      ∧ r.handle.body = BodySource.buffer (payload.takeWhile (fun b => b != 0)) ct
      ∧ ((∀ b ∈ payload, b ≠ 0) → r.handle.body = BodySource.buffer payload ct)
      ∧ (payload = [] → r.handle.body = BodySource.buffer [] ct) := by
  have htw : (∀ b ∈ payload, b ≠ 0) → payload.takeWhile (fun b => b != 0) = payload := by
    intro hnz
    induction payload with
    | nil => rfl
    | cons b bs ih =>
      have hb : (b != 0) = true := by
        simpa using hnz b (by simp)
      simp only [List.takeWhile_cons, hb, if_true]
      rw [ih (fun x hx => hnz x (by simp [hx]))]
  simp only [Client.post, resolveCredentials, registerHandle, applySslOptions, hw, hauth]
  refine ⟨_, rfl, rfl, fun hnz => ?_, fun hnil => ?_⟩
  · simp [cStr, htw hnz]
  · simp [hnil, cStr]

/-- Witness for C8 (amended) at a NUL-free payload and at the empty payload. -/
theorem post_body_cstr_witness :
    (∃ r, (Client.post sampleValidator {} sampleConfig [104, 105] "text/plain").1 = Except.ok r
      ∧ r.handle.body = BodySource.buffer [104, 105] "text/plain")
    ∧ (∃ r, (Client.post sampleValidator {} sampleConfig [] "text/plain").1 = Except.ok r
      ∧ r.handle.body = BodySource.buffer [] "text/plain") := by
  constructor
  · rcases post_body_cstr sampleValidator {} sampleConfig [104, 105] "text/plain"
      (by decide) rfl with ⟨r, hr, -, hfull, -⟩
    exact ⟨r, hr, hfull (by decide)⟩
  · rcases post_body_cstr sampleValidator {} sampleConfig [] "text/plain"
      (by decide) rfl with ⟨r, hr, -, -, hnil⟩
    exact ⟨r, hr, hnil rfl⟩

/-! ## Claim C9 -/

/-- Claim C9: every successful submission registers exactly one new transfer
handle with the multiplexer (appended to its handle set) and immediately
returns a fresh request facade in the `pending` state; the multiplexer's
remaining state — pipelining option and timing records — is untouched, i.e.
no transfer progress or network I/O happens synchronously during the call. -/
theorem submission_registers_pending (v : UrlValidator) (m : Multiplexer)
    (cfg : Configuration) (payload : Bytes) (ct : String) (size : Nat)
    (hw : v.wellFormed cfg.uri = true)
    (hauth : cfg.authentication_handler = Option.none) :
    (∃ r, Client.head v m cfg
        = (Except.ok r, { m with handles := m.handles ++ [r.handle] })
      ∧ r.state = RequestState.pending)
    ∧ (∃ r, Client.get v m cfg
        = (Except.ok r, { m with handles := m.handles ++ [r.handle] })
      ∧ r.state = RequestState.pending)
    ∧ (∃ r, Client.post v m cfg payload ct
        = (Except.ok r, { m with handles := m.handles ++ [r.handle] })
      ∧ r.state = RequestState.pending)
    ∧ (∃ r, Client.put v m cfg size
        = (Except.ok r, { m with handles := m.handles ++ [r.handle] })
      ∧ r.state = RequestState.pending)
    ∧ (Client.get v m cfg).2.pipelining = m.pipelining
    ∧ (Client.get v m cfg).2.timings = m.timings := by
  simp only [Client.head, Client.get, Client.post, Client.put, resolveCredentials,
    registerHandle, hw, hauth]
  exact ⟨⟨_, rfl, rfl⟩, ⟨_, rfl, rfl⟩, ⟨_, rfl, rfl⟩, ⟨_, rfl, rfl⟩, rfl, rfl⟩

/-- Witness for C9: submitting a GET on the sample configuration. -/
theorem submission_registers_pending_witness :
    ∃ r, Client.get sampleValidator {} sampleConfig
        = (Except.ok r, { handles := [r.handle] })
      ∧ r.state = RequestState.pending := by
  rcases (submission_registers_pending sampleValidator {} sampleConfig [] "" 0
    (by decide) rfl).2.1 with ⟨r, hr, hs⟩
  exact ⟨r, by simpa using hr, hs⟩

/-! ## Claim C10 -/

/-- Claim C10: `base64_encode` and `base64_decode` are pure and
deterministic — invoked on any two client states (the same or different
`Client` instances) with equal inputs they produce equal outputs, and they
leave the client's observable state unchanged. -/
theorem base64_codec_pure (c1 c2 : Multiplexer) (s : Bytes) :
    (Client.base64_encode_m c1 s).1 = (Client.base64_encode_m c2 s).1
    ∧ (Client.base64_encode_m c1 s).2 = c1
    ∧ (Client.base64_decode_m c1 s).1 = (Client.base64_decode_m c2 s).1
    ∧ (Client.base64_decode_m c1 s).2 = c1 :=
  ⟨rfl, rfl, rfl, rfl⟩

end NetCpp
